import Mathlib

/-
Formal model of the x402 Dune Analytics pipeline (src/x402_pipeline.py and
src/scheduler.py): the query catalog, the retrying fetcher, the append-only
SQLite result cache with its latest-row lookup, the tail access view, the
Artemis export aggregation, and the daemon scheduler's rescheduling rule.
-/

namespace X402

/-- A scalar or structured value held in a row record. The pipeline never
inspects row values (it only stores, slices and merges rows), so the embedding
keeps a small value universe with decidable equality. -/
inductive Val where
  | vstr : String → Val
  | vint : Int → Val
  | vtime : Nat → Val
deriving DecidableEq, Repr

/-- A row record: a Python dict as json.loads produces it, i.e. an
insertion-ordered association list of column name to value (keys unique). -/
abbrev RowRec := List (String × Val)

/-- Python dict lookup d[k]: the binding at the (unique) position of k; on a
list with duplicate keys the first binding is the one a dict would hold. -/
def dictGet : RowRec → String → Option Val
  | [], _ => none
  | (k, v) :: r, key => if k = key then some v else dictGet r key

/-- Python dict update d[k] = v as dict construction performs it: the value is
replaced at the existing position of k, or a new binding is appended at the
end; insertion order of the other keys is preserved. -/
def dictSet : RowRec → String → Val → RowRec
  | [], key, val => [(key, val)]
  | (k, v) :: r, key, val =>
    if k = key then (k, val) :: r else (k, v) :: dictSet r key val

/-- The QUERY_IDS module constant of x402_pipeline.py: the static query
catalog, in Python dict (insertion) order. -/
def QUERY_IDS : List (String × Nat) := [
  ("num transactions", 6084845),
  ("num transactions percent", 6084845),
  ("x402 volume evm", 6094619),
  ("volume by token evm", 6094619),
  ("facilitators by chain", 6084891),
  ("facilitators by chain percent", 6084891),
  ("facilitators solana", 6084802),
  ("x402 volume solana", 6094785),
  ("volume by token solana", 6094785)]

/-- Catalog lookup: QUERY_IDS[logical_name], with none modelling the
logical_name not in QUERY_IDS membership test. -/
def resolveQuery (logical_name : String) : Option Nat :=
  (QUERY_IDS.find? (fun p => p.1 == logical_name)).map (fun p => p.2)

/-- The data column of the query_results table holds serialized JSON text.
The embedding keeps the parse outcome abstractly: text written by json.dumps
parses back (json.loads) to the original row list, any other text in the
column may fail to parse. -/
inductive Payload where
  | ok : List RowRec → Payload
  | bad : Payload
deriving DecidableEq, Repr

/-- json.loads applied to the stored data text: succeeds exactly on
round-tripping payloads. -/
def Payload.parse : Payload → Option (List RowRec)
  | .ok rows => some rows
  | .bad => none

/-- One row of the query_results table. Timestamps are modelled as naturals
ordered chronologically: the byte-wise TEXT comparison SQLite applies to the
ISO-8601 strings written by datetime.now().isoformat() agrees with
chronological order for instants of one process run. -/
structure Entry where
  id : Nat
  logical_name : String
  query_id : Nat
  data : Payload
  timestamp : Nat
  row_count : Nat
deriving DecidableEq, Repr

/-- The query_results table in rowid (insertion) order: the head is the oldest
row. The id column is AUTOINCREMENT and the table is only ever appended to, so
a row's id is its position plus one. -/
abbrev Database := List Entry

/-- The rows of the table whose logical_name column equals name, in rowid
order (the WHERE clause of every read in the pipeline). -/
def entriesFor (db : Database) (name : String) : List Entry :=
  db.filter (fun e => e.logical_name == name)

/-- The scan behind SELECT ... WHERE logical_name = ? ORDER BY timestamp DESC
LIMIT 1 as SQLite executes it on this schema (search on idx_logical_name in
rowid order, LIMIT-1 sort keeping the current best and replacing it only on a
strictly greater key): among rows sharing the maximum timestamp the earliest
inserted row is kept. SQLite leaves the order of ORDER BY ties unspecified;
this model follows the behaviour the engine exhibits on the exact schema and
query of the source (checked against SQLite 3.40). -/
def latestScan : Entry → List Entry → Entry
  | best, [] => best
  | best, e :: es => latestScan (if best.timestamp < e.timestamp then e else best) es

/-- The latest-result lookup shared by get_query, tail, list_queries and
export_for_artemis: SELECT ... WHERE logical_name = ? ORDER BY timestamp DESC
LIMIT 1, none when the name has no cached row. -/
def latestFor (db : Database) (name : String) : Option Entry :=
  match entriesFor db name with
  | [] => none
  | e :: es => some (latestScan e es)

/-- Running maximum of the timestamp column, seeded with m (specification-side
helper used to state the latest-lookup theorems). -/
def tsAcc : Nat → List Entry → Nat
  | m, [] => m
  | m, e :: l => tsAcc (max m e.timestamp) l

/-- The maximum timestamp among a list of cache entries (0 on the empty list). -/
def tsMax (l : List Entry) : Nat := tsAcc 0 l

/-- The error surfaced by _retry_with_backoff: either the exception raised by
the final attempt of func (re-raised by the bare raise), or the trailing
raise of the "Max retries exceeded" exception, reachable only when
max_retries is not positive. -/
inductive RetryError (E : Type) where
  | original : E → RetryError E
  | maxRetriesExceeded : RetryError E
deriving DecidableEq, Repr

/-- The for attempt in range(max_retries) loop of _retry_with_backoff, run over
the list of remaining attempt indices. f k is the behaviour of func() on its
k-th invocation (0-indexed): a raised exception or a return value. The result
records the outcome, the number of calls to func made, and the sleep durations
in order (delay = base_delay * 2 ** attempt, computed after the failure of
attempt number attempt; the multiplication by a power of two is exact in the
source's floating point, so rationals model it faithfully). -/
def retryLoop (f : Nat → Except E A) (max_retries : Nat) (base_delay : ℚ) :
    List Nat → Except (RetryError E) A × Nat × List ℚ
  | [] => (.error .maxRetriesExceeded, 0, [])
  | attempt :: rest =>
    match f attempt with
    | .ok a => (.ok a, 1, [])
    | .error e =>
      if attempt = max_retries - 1 then (.error (.original e), 1, [])
      else
        let r := retryLoop f max_retries base_delay rest
        (r.1, r.2.1 + 1, base_delay * 2 ^ attempt :: r.2.2)

/-- _retry_with_backoff(func, max_retries, base_delay) of x402_pipeline.py. -/
def retryWithBackoff (f : Nat → Except E A) (max_retries : Nat) (base_delay : ℚ) :
    Except (RetryError E) A × Nat × List ℚ :=
  retryLoop f max_retries base_delay (List.range max_retries)

/-- The shape of a dune-client response as fetch_query inspects it: noResult
models a response that is falsy, lacks the result attribute or has a falsy
result field; withRows models a response carrying a result whose rows field is
a row list or None. The choice of client method (run_query when waiting for
completion, get_latest_result otherwise) only selects which remote call is
retried, so the embedding abstracts both behind one per-attempt behaviour. -/
inductive FetchResponse where
  | noResult : FetchResponse
  | withRows : Option (List RowRec) → FetchResponse
deriving DecidableEq, Repr

/-- The observable effect of one fetch_query call: the returned value (None is
none), the table after the call, and the number of calls made to the dune
client (the trace of the retry loop; 0 when no remote call happens). -/
structure FetchEffect where
  result : Option Entry
  db : Database
  remoteCalls : Nat
deriving DecidableEq, Repr

/-- fetch_query(logical_name) of x402_pipeline.py. remote k is the outcome of
the k-th client call (a raised exception, carried as a String message, or a
response); now is the value datetime.now() yields when the fetch completes.
Unknown names return before any remote call; the try/except around the body
turns a retry-exhaustion exception into a None return; a response without a
usable result returns None without writing; otherwise one row is inserted with
data json.dumps(rows) if rows else "[]" (an empty payload) and
row_count = len(rows) if rows else 0, and the matching QueryResult is
returned. -/
def fetch_query (db : Database) (logical_name : String)
    (remote : Nat → Except String FetchResponse) (now : Nat) : FetchEffect :=
  match resolveQuery logical_name with
  | none => ⟨none, db, 0⟩
  | some query_id =>
    let r := retryWithBackoff remote 3 1
    match r.1 with
    | .error _ => ⟨none, db, r.2.1⟩
    | .ok resp =>
      match resp with
      | .noResult => ⟨none, db, r.2.1⟩
      | .withRows rowsOpt =>
        let rows := rowsOpt.getD []
        let entry : Entry :=
          ⟨db.length + 1, logical_name, query_id, .ok rows, now, rows.length⟩
        ⟨some entry, db ++ [entry], r.2.1⟩

/-- get_query(logical_name, limit, offset): pagination view
all_data[offset : offset + limit] over the latest cached result. -/
def get_query (db : Database) (logical_name : String) (limit offset : Nat) :
    Option (List RowRec) :=
  match resolveQuery logical_name with
  | none => none
  | some _ =>
    match latestFor db logical_name with
    | none => none
    | some e =>
      match e.data.parse with
      | none => none
      | some all_data => some ((all_data.drop offset).take limit)

/-- all_data[-n:] for n ≥ 0 as Python evaluates the slice: for n = 0 the lower
bound -0 is 0 and the whole list is returned; for n ≥ 1 the lower bound clamps
at 0, giving the last n elements (all of them when n exceeds the length). -/
def pyLastSlice (d : List RowRec) (n : Nat) : List RowRec :=
  if n = 0 then d else d.drop (d.length - n)

/-- tail(logical_name, n) of x402_pipeline.py:
all_data[-n:] if len(all_data) > n else all_data over the latest cached
result, with None for unknown names, missing rows and unparseable payloads. -/
def tail (db : Database) (logical_name : String) (n : Nat) : Option (List RowRec) :=
  match resolveQuery logical_name with
  | none => none
  | some _ =>
    match latestFor db logical_name with
    | none => none
    | some e =>
      match e.data.parse with
      | none => none
      | some all_data =>
        some (if n < all_data.length then pyLastSlice all_data n else all_data)

/-- One line of list_queries output: logical name, query id, timestamp of the
latest fetch (none for Never) and its row count (0 without data). -/
def list_queries (db : Database) : List (String × Nat × Option Nat × Nat) :=
  QUERY_IDS.map (fun nq =>
    match latestFor db nq.1 with
    | none => (nq.1, nq.2, none, 0)
    | some e => (nq.1, nq.2, some e.timestamp, e.row_count))

/-- One record of export_summary of export_for_artemis (queries_exported). -/
structure ExportRecord where
  logical_name : String
  query_id : Nat
  row_count : Nat
  last_fetch : Nat
deriving DecidableEq, Repr

/-- The accumulating export summary (the fields the claims concern; the file
list and wall-clock strings are outside the model). -/
structure ExportSummary where
  queries_exported : List ExportRecord
  total_rows : Nat
deriving DecidableEq, Repr

/-- Row enrichment in export_for_artemis: the dict display that copies
row_data and then sets the four reserved metadata keys, in source order
_query_name, _query_id, _fetched_at, _exported_at. -/
def enrichRow (logical_name : String) (query_id : Nat) (fetched_at exported_at : Nat)
    (row : RowRec) : RowRec :=
  dictSet (dictSet (dictSet (dictSet row "_query_name" (.vstr logical_name))
    "_query_id" (.vint (Int.ofNat query_id))) "_fetched_at" (.vtime fetched_at))
    "_exported_at" (.vtime exported_at)

/-- The per-entry selection of the export loop, as an option: the latest cached
result of a catalog entry survives unless it is missing (no data found
warning), its payload fails to parse (invalid JSON warning), or the parsed row
list is empty (empty result warning). Used to state which entries the loop
skips. -/
def exportKeep (db : Database) (nq : String × Nat) : Option (Entry × List RowRec) :=
  match latestFor db nq.1 with
  | none => none
  | some e =>
    match e.data.parse with
    | none => none
    | some rows => if rows = [] then none else some (e, rows)

/-- The catalog loop of export_for_artemis over the given catalog entries in
order: each surviving entry contributes its enriched rows to all_data, one
record to queries_exported and its stored row_count to total_rows; the three
warning branches contribute nothing. exported_at stands for the
datetime.now() values taken while enriching. -/
def exportLoop (db : Database) (exported_at : Nat) :
    List (String × Nat) → ExportSummary × List RowRec
  | [] => (⟨[], 0⟩, [])
  | (logical_name, query_id) :: rest =>
    match latestFor db logical_name with
    | none => exportLoop db exported_at rest
    | some e =>
      match e.data.parse with
      | none => exportLoop db exported_at rest
      | some rows =>
        if rows = [] then exportLoop db exported_at rest
        else
          let r := exportLoop db exported_at rest
          (⟨⟨logical_name, query_id, e.row_count, e.timestamp⟩ :: r.1.queries_exported,
             e.row_count + r.1.total_rows⟩,
           rows.map (enrichRow logical_name query_id e.timestamp exported_at) ++ r.2)

/-- export_for_artemis of x402_pipeline.py, restricted to the summary fields
and the aggregated enriched rows (file writing and the schema descriptor
derive from these and are outside the model). -/
def export_for_artemis (db : Database) (exported_at : Nat) :
    ExportSummary × List RowRec :=
  exportLoop db exported_at QUERY_IDS

/-- One polling iteration of the while loop of run_continuous_scheduler:
now is the datetime.now() sample taken at the top of the iteration (the run
start time when a run triggers), next_update the scheduled time, runOutcome
the boolean run_daily_update returns when invoked at a given instant. Time is
in seconds, so timedelta(hours=h) is h * 3600. Returns whether a run was
triggered and the new next_update value. -/
def schedulerStep (interval_hours : Nat) (runOutcome : Nat → Bool)
    (now next_update : Nat) : Bool × Nat :=
  if next_update ≤ now then
    (true, if runOutcome now then now + interval_hours * 3600 else now + 3600)
  else (false, next_update)

/-- First entry of the counterexample cache for the latest-lookup tie-break:
inserted first (rowid 1), timestamp 100. -/
def ceEntry1 : Entry := ⟨1, "num transactions", 6084845, .ok [], 100, 0⟩

/-- Second entry of the counterexample cache: same logical name and the same
timestamp 100, inserted later (rowid 2). -/
def ceEntry2 : Entry :=
  ⟨2, "num transactions", 6084845, .ok [[("x", .vint 1)]], 100, 1⟩

/-- A cached result with five rows for the witness scenarios. -/
def wEntryA : Entry :=
  ⟨1, "num transactions", 6084845,
    .ok [[("i", .vint 0)], [("i", .vint 1)], [("i", .vint 2)], [("i", .vint 3)],
         [("i", .vint 4)]], 10, 5⟩

/-- A one-entry cache used by the witnesses. -/
def wDb : Database := [wEntryA]

lemma retryLoop_all_fail {E A : Type} (f : Nat → Except E A) (errs : Nat → E)
    (hf : ∀ j, f j = .error (errs j)) (m : Nat) (b : ℚ) :
    ∀ (k a : Nat), a + k + 1 = m →
      retryLoop f m b (List.range' a (k + 1)) =
        (.error (.original (errs (m - 1))), k + 1,
          (List.range' a k).map (fun j => b * 2 ^ j)) := by
  intro k
  induction k with
  | zero =>
    intro a ha
    have ha1 : a = m - 1 := by omega
    subst ha1
    simp [List.range'_succ, retryLoop, hf]
  | succ k ih =>
    intro a ha
    have hne : ¬ a = m - 1 := by omega
    have h2 := ih (a + 1) (by omega)
    have hstep : ∀ (rest : List Nat), retryLoop f m b (a :: rest) =
        ((retryLoop f m b rest).1, (retryLoop f m b rest).2.1 + 1,
          b * 2 ^ a :: (retryLoop f m b rest).2.2) := by
      intro rest
      simp only [retryLoop, hf a, hne, if_false]
    rw [List.range'_succ, hstep, h2]
    simp [List.range'_succ]

/-- C1: when every remote attempt fails, _retry_with_backoff calls func
exactly max_retries times (so never more), the k-th backoff delay (0-indexed,
slept after the failure of attempt k) is base_delay * 2 ^ k, and the error of
the final attempt is re-raised to the caller rather than swallowed. -/
theorem retry_exhaustion_spec (E A : Type) (f : Nat → Except E A) (errs : Nat → E)
    (hf : ∀ j, f j = .error (errs j)) (m : Nat) (b : ℚ) (hm : 1 ≤ m) :
    retryWithBackoff f m b =
      (.error (.original (errs (m - 1))), m,
        (List.range (m - 1)).map (fun j => b * 2 ^ j)) := by
  have hm1 : m - 1 + 1 = m := by omega
  have hr : List.range m = List.range' 0 (m - 1 + 1) := by
    rw [hm1, List.range_eq_range']
  have h := retryLoop_all_fail f errs hf m b (m - 1) 0 (by omega)
  rw [retryWithBackoff, hr, h, hm1, List.range_eq_range']

/-- Witness for C1: three attempts that all raise, max_retries 3 and
base_delay 1 produce exactly three calls, the delays 1 and 2, and the final
error resurfacing. -/
theorem retry_exhaustion_witness :
    retryWithBackoff (fun _ : Nat => (Except.error "boom" : Except String Unit)) 3 1 =
      (.error (.original "boom"), 3, [1, 2]) := by
  have h := retry_exhaustion_spec String Unit (fun _ => .error "boom")
    (fun _ => "boom") (fun _ => rfl) 3 1 (by norm_num)
  rw [h]
  norm_num [List.range_succ]

lemma le_tsAcc : ∀ (l : List Entry) (m : Nat), m ≤ tsAcc m l := by
  intro l
  induction l with
  | nil => intro m; simp [tsAcc]
  | cons e l ih =>
    intro m
    simp only [tsAcc]
    exact le_trans (Nat.le_max_left _ _) (ih _)

lemma mem_le_tsAcc : ∀ (l : List Entry) (m : Nat) (x : Entry),
    x ∈ l → x.timestamp ≤ tsAcc m l := by
  intro l
  induction l with
  | nil => intro m x hx; simp at hx
  | cons e l ih =>
    intro m x hx
    simp only [tsAcc]
    rcases List.mem_cons.mp hx with h | h
    · subst h; exact le_trans (Nat.le_max_right _ _) (le_tsAcc _ _)
    · exact ih _ _ h

lemma find_cons_pos {α : Type} (p : α → Bool) (a : α) (l : List α)
    (h : p a = true) : (a :: l).find? p = some a := by
  simp [List.find?, h]

lemma find_cons_neg {α : Type} (p : α → Bool) (a : α) (l : List α)
    (h : p a = false) : (a :: l).find? p = l.find? p := by
  simp [List.find?, h]

lemma latestScan_find : ∀ (l : List Entry) (b : Entry),
    (b :: l).find? (fun x => x.timestamp == tsAcc b.timestamp l) =
      some (latestScan b l) := by
  intro l
  induction l with
  | nil =>
    intro b
    simp [tsAcc, latestScan]
  | cons e l ih =>
    intro b
    by_cases hbe : b.timestamp < e.timestamp
    · have hmax : max b.timestamp e.timestamp = e.timestamp :=
        Nat.max_eq_right (le_of_lt hbe)
      have hblt : b.timestamp < tsAcc e.timestamp l :=
        lt_of_lt_of_le hbe (le_tsAcc l _)
      have hpbF : (b.timestamp == tsAcc e.timestamp l) = false := by
        simp only [beq_eq_false_iff_ne, ne_eq]
        exact Nat.ne_of_lt hblt
      simp only [tsAcc, hmax, latestScan, if_pos hbe]
      rw [find_cons_neg (fun x => x.timestamp == tsAcc e.timestamp l) b
        (e :: l) hpbF]
      exact ih e
    · have hle : e.timestamp ≤ b.timestamp := le_of_not_lt hbe
      have hmax : max b.timestamp e.timestamp = b.timestamp := Nat.max_eq_left hle
      simp only [tsAcc, hmax, latestScan, if_neg hbe]
      have h1 := ih b
      by_cases hpb : b.timestamp = tsAcc b.timestamp l
      · have hpbT : (b.timestamp == tsAcc b.timestamp l) = true := by
          simp only [beq_iff_eq]
          exact hpb
        rw [find_cons_pos (fun x => x.timestamp == tsAcc b.timestamp l) b l
          hpbT] at h1
        rw [find_cons_pos (fun x => x.timestamp == tsAcc b.timestamp l) b
          (e :: l) hpbT]
        exact h1
      · have hpbF : (b.timestamp == tsAcc b.timestamp l) = false := by
          simp only [beq_eq_false_iff_ne, ne_eq]
          exact hpb
        have hpeF : (e.timestamp == tsAcc b.timestamp l) = false := by
          simp only [beq_eq_false_iff_ne, ne_eq]
          intro he
          refine hpb (le_antisymm (le_tsAcc l _) ?_)
          rw [← he]
          exact hle
        rw [find_cons_neg (fun x => x.timestamp == tsAcc b.timestamp l) b l
          hpbF] at h1
        rw [find_cons_neg (fun x => x.timestamp == tsAcc b.timestamp l) b
          (e :: l) hpbF,
          find_cons_neg (fun x => x.timestamp == tsAcc b.timestamp l) e l hpeF]
        exact h1

lemma tsMax_cons (b : Entry) (l : List Entry) :
    tsMax (b :: l) = tsAcc b.timestamp l := by
  simp only [tsMax, tsAcc, Nat.zero_max]

lemma latestFor_eq_find (db : Database) (name : String)
    (h : entriesFor db name ≠ []) :
    latestFor db name =
      (entriesFor db name).find?
        (fun x => x.timestamp == tsMax (entriesFor db name)) := by
  rcases hl : entriesFor db name with _ | ⟨b, l⟩
  · exact absurd hl h
  · have hlf : latestFor db name = some (latestScan b l) := by
      unfold latestFor
      rw [hl]
    rw [hlf, tsMax_cons]
    exact (latestScan_find l b).symm

/-- C2 (amended): the latest-result lookup shared by get_query, tail,
list_queries and export_for_artemis returns an entry holding the maximum
timestamp among the cached entries for the logical name; when several entries
share the maximum timestamp it returns the earliest inserted of them (the
first in rowid order), not the most recently inserted one. -/
theorem latest_lookup_spec (db : Database) (name : String)
    (h : entriesFor db name ≠ []) :
    latestFor db name =
      (entriesFor db name).find?
        (fun x => x.timestamp == tsMax (entriesFor db name))
    ∧ ∃ e, latestFor db name = some e ∧ e ∈ entriesFor db name
        ∧ ∀ x ∈ entriesFor db name, x.timestamp ≤ e.timestamp := by
  refine ⟨latestFor_eq_find db name h, ?_⟩
  rcases hl : entriesFor db name with _ | ⟨b, l⟩
  · exact absurd hl h
  · have hlf : latestFor db name = some (latestScan b l) := by
      unfold latestFor
      rw [hl]
    have hfind := latestScan_find l b
    have hmem : latestScan b l ∈ b :: l := List.mem_of_find?_eq_some hfind
    have hts : (latestScan b l).timestamp = tsAcc b.timestamp l := by
      have := List.find?_some hfind
      simpa using this
    refine ⟨latestScan b l, hlf, hmem, ?_⟩
    intro x hx
    rw [hts]
    rcases List.mem_cons.mp hx with hxb | hxl
    · subst hxb; exact le_tsAcc l _
    · exact mem_le_tsAcc l _ x hxl

/-- C2 counterexample: a cache holding two entries for one logical name with
equal timestamps; the lookup returns the first inserted entry, not the most
recently inserted one the claim names. -/
theorem latest_lookup_counterexample :
    latestFor [ceEntry1, ceEntry2] "num transactions" = some ceEntry1
    ∧ ceEntry1.timestamp = ceEntry2.timestamp ∧ ceEntry1 ≠ ceEntry2 := by decide

/-- Witness for C2: the amended lookup equation evaluated on a concrete
one-entry cache. -/
theorem latest_lookup_witness :
    latestFor wDb "num transactions" =
      (entriesFor wDb "num transactions").find?
        (fun x => x.timestamp == tsMax (entriesFor wDb "num transactions")) :=
  (latest_lookup_spec wDb "num transactions" (by decide)).1

lemma latestScan_lt (l : List Entry) : ∀ (b y : Entry),
    b.timestamp < y.timestamp → (∀ x ∈ l, x.timestamp < y.timestamp) →
    latestScan b (l ++ [y]) = y := by
  induction l with
  | nil =>
    intro b y hb _hl
    simp [latestScan, if_pos hb]
  | cons x l ih =>
    intro b y hb hl
    have hx : x.timestamp < y.timestamp := hl x (List.mem_cons_self x l)
    simp only [List.cons_append, latestScan]
    by_cases hbx : b.timestamp < x.timestamp
    · rw [if_pos hbx]
      exact ih x y hx (fun z hz => hl z (List.mem_cons_of_mem x hz))
    · rw [if_neg hbx]
      exact ih b y hb (fun z hz => hl z (List.mem_cons_of_mem x hz))

lemma latestFor_append_fresh (db : Database) (e : Entry) (name : String)
    (hname : e.logical_name = name)
    (hfresh : ∀ x ∈ entriesFor db name, x.timestamp < e.timestamp) :
    latestFor (db ++ [e]) name = some e := by
  have hfe : entriesFor (db ++ [e]) name = entriesFor db name ++ [e] := by
    simp [entriesFor, List.filter_append, hname]
  rcases hl : entriesFor db name with _ | ⟨b, l⟩
  · have h0 : latestFor (db ++ [e]) name = some (latestScan e []) := by
      unfold latestFor
      rw [hfe, hl, List.nil_append]
    rw [h0]
    simp [latestScan]
  · have hb : b.timestamp < e.timestamp :=
      hfresh b (by rw [hl]; exact List.mem_cons_self b l)
    have hli : ∀ x ∈ l, x.timestamp < e.timestamp :=
      fun x hx => hfresh x (by rw [hl]; exact List.mem_cons_of_mem b hx)
    have h0 : latestFor (db ++ [e]) name = some (latestScan b (l ++ [e])) := by
      unfold latestFor
      rw [hfe, hl, List.cons_append]
    rw [h0, latestScan_lt l b e hb hli]

/-- C3: fetch_query either leaves the table unchanged (returning None) or
appends exactly one new row after the existing ones, the row it returns; and
an appended row whose timestamp is fresher than every cached row for its name
(the normal case, timestamps being taken from a per-process clock at fetch
completion) is what the immediately following latest-result lookup returns. -/
theorem cache_append_only (db : Database) (name : String)
    (remote : Nat → Except String FetchResponse) (now : Nat) :
    (((fetch_query db name remote now).result = none ∧
        (fetch_query db name remote now).db = db) ∨
      (∃ e, (fetch_query db name remote now).result = some e ∧
        (fetch_query db name remote now).db = db ++ [e]))
    ∧ (∀ e, (fetch_query db name remote now).result = some e →
        (∀ x ∈ entriesFor db name, x.timestamp < now) →
        latestFor (fetch_query db name remote now).db name = some e) := by
  rcases hq : resolveQuery name with _ | qid
  · constructor
    · left
      constructor <;> simp [fetch_query, hq]
    · intro e he _h
      simp [fetch_query, hq] at he
  · rcases hr : (retryWithBackoff remote 3 1).1 with err | resp
    · constructor
      · left
        constructor <;> simp [fetch_query, hq, hr]
      · intro e he _h
        simp [fetch_query, hq, hr] at he
    · rcases resp with _ | rowsOpt
      · constructor
        · left
          constructor <;> simp [fetch_query, hq, hr]
        · intro e he _h
          simp [fetch_query, hq, hr] at he
      · constructor
        · right
          refine ⟨⟨db.length + 1, name, qid, .ok (rowsOpt.getD []), now,
            (rowsOpt.getD []).length⟩, ?_, ?_⟩ <;> simp [fetch_query, hq, hr]
        · intro e he hfresh
          simp only [fetch_query, hq, hr] at he ⊢
          simp only [Option.some.injEq] at he
          subst he
          exact latestFor_append_fresh db _ name rfl hfresh

/-- Witness for C3: a successful fetch into an empty cache appends one row
that the following latest-result lookup returns. -/
theorem cache_append_only_witness :
    latestFor (fetch_query [] "num transactions"
      (fun _ => .ok (.withRows (some [[("x", .vint 1)]]))) 5).db
      "num transactions" =
      some ⟨1, "num transactions", 6084845, .ok [[("x", .vint 1)]], 5, 1⟩ :=
  (cache_append_only [] "num transactions"
    (fun _ => .ok (.withRows (some [[("x", .vint 1)]]))) 5).2
    ⟨1, "num transactions", 6084845, .ok [[("x", .vint 1)]], 5, 1⟩
    (by decide) (by decide)

/-- C5: whenever the remote call comes back with a result (after any number of
retries), fetch_query appends exactly one cache row whose payload is the
returned row sequence and whose row_count is its length; a rows field that is
None or the empty list is stored as the empty payload with row_count 0 and
still returned as a success, not an error. -/
theorem fetch_success_records (db : Database) (name : String)
    (remote : Nat → Except String FetchResponse) (now : Nat) (qid : Nat)
    (rowsOpt : Option (List RowRec))
    (hq : resolveQuery name = some qid)
    (hr : (retryWithBackoff remote 3 1).1 = .ok (.withRows rowsOpt)) :
    ∃ e, fetch_query db name remote now =
        ⟨some e, db ++ [e], (retryWithBackoff remote 3 1).2.1⟩
      ∧ e.data = .ok (rowsOpt.getD [])
      ∧ e.row_count = (rowsOpt.getD []).length
      ∧ ((rowsOpt = none ∨ rowsOpt = some []) →
          e.data = .ok [] ∧ e.row_count = 0) := by
  refine ⟨⟨db.length + 1, name, qid, .ok (rowsOpt.getD []), now,
    (rowsOpt.getD []).length⟩, ?_, rfl, rfl, ?_⟩
  · simp [fetch_query, hq, hr]
  · rintro (h | h) <;> subst h <;> exact ⟨rfl, rfl⟩

/-- Witness for C5: a response whose rows field is the empty list is cached as
an empty payload with row_count 0 and returned as a success. -/
theorem fetch_success_witness :
    ∃ e, fetch_query [] "num transactions"
        (fun _ => .ok (.withRows (some []))) 7 =
        ⟨some e, [] ++ [e],
          (retryWithBackoff (fun _ : Nat =>
            (Except.ok (FetchResponse.withRows (some [])) :
              Except String FetchResponse)) 3 1).2.1⟩
      ∧ e.data = .ok [] ∧ e.row_count = 0 := by
  obtain ⟨e, h1, _h2, _h3, h4⟩ := fetch_success_records [] "num transactions"
    (fun _ => .ok (.withRows (some []))) 7 6084845 (some [])
    (by decide) (by rfl)
  obtain ⟨hd, hc⟩ := h4 (Or.inr rfl)
  exact ⟨e, h1, hd, hc⟩

/-- C6: fetching a logical name missing from the catalog returns None
immediately: no remote call is made (zero client invocations) and the table is
unchanged. -/
theorem fetch_unknown_notfound (db : Database) (name : String) (now : Nat)
    (hq : resolveQuery name = none) :
    ∀ remote, fetch_query db name remote now = ⟨none, db, 0⟩ := by
  intro remote
  simp [fetch_query, hq]

/-- Witness for C6: fetching the unknown name Z leaves an empty cache empty,
returns None and performs no remote call. -/
theorem fetch_unknown_witness :
    fetch_query [] "Z" (fun _ => .ok (.withRows (some [[("x", .vint 1)]]))) 0 =
      ⟨none, [], 0⟩ :=
  fetch_unknown_notfound [] "Z" 0 (by decide) _

/-- C10: fetch_query is a total function into an optional result (the
try/except around its body converts every raised error into a None return);
an unknown name, exhaustion of all three retries, and a response without a
usable result each produce the same returned value None with the table
unchanged, distinguishable only by their traces. -/
theorem fetch_failure_modes (db : Database) (name : String) (now : Nat) :
    (resolveQuery name = none →
      ∀ remote, fetch_query db name remote now = ⟨none, db, 0⟩)
    ∧ (∀ (remote : Nat → Except String FetchResponse) (errs : Nat → String)
        (qid : Nat), resolveQuery name = some qid →
        (∀ k, remote k = .error (errs k)) →
        fetch_query db name remote now = ⟨none, db, 3⟩)
    ∧ (∀ (remote : Nat → Except String FetchResponse) (qid : Nat),
        resolveQuery name = some qid →
        (retryWithBackoff remote 3 1).1 = .ok .noResult →
        fetch_query db name remote now =
          ⟨none, db, (retryWithBackoff remote 3 1).2.1⟩) := by
  refine ⟨?_, ?_, ?_⟩
  · intro hq remote
    simp [fetch_query, hq]
  · intro remote errs qid hq herr
    have h := retryLoop_all_fail remote errs herr 3 1 2 0 (by omega)
    have h3 : (2 : Nat) + 1 = 3 := rfl
    rw [h3] at h
    have hw : retryWithBackoff remote 3 1 =
        (.error (.original (errs 2)), 3,
          (List.range' 0 2).map (fun j => (1 : ℚ) * 2 ^ j)) := by
      rw [retryWithBackoff, List.range_eq_range']
      exact h
    simp [fetch_query, hq, hw]
  · intro remote qid hq hr
    simp [fetch_query, hq, hr]

/-- Witness for C10: the three failure modes at concrete inputs all return
None with the empty cache untouched. -/
theorem fetch_failure_modes_witness :
    fetch_query [] "Z" (fun _ => .error "boom") 0 = ⟨none, [], 0⟩
    ∧ fetch_query [] "num transactions" (fun _ => .error "boom") 0 =
        ⟨none, [], 3⟩
    ∧ fetch_query [] "num transactions" (fun _ => .ok .noResult) 0 =
        ⟨none, [], 1⟩ := by
  refine ⟨(fetch_failure_modes [] "Z" 0).1 (by decide) _,
    (fetch_failure_modes [] "num transactions" 0).2.1 (fun _ => .error "boom")
      (fun _ => "boom") 6084845 (by decide) (fun _ => rfl), ?_⟩
  exact (fetch_failure_modes [] "num transactions" 0).2.2
    (fun _ => .ok .noResult) 6084845 (by decide) rfl

/-- C7: on a known logical name whose latest cached entry parses to the row
list d, tail(name, n) never errors: it returns the slice d[-n:] when
len(d) > n and the full list d otherwise; for 0 < n ≤ len(d) the slice is the
length-n suffix of d. -/
theorem tail_slice_spec (db : Database) (name : String) (n : Nat) (e : Entry)
    (d : List RowRec) (hq : (resolveQuery name).isSome)
    (hl : latestFor db name = some e) (hd : e.data.parse = some d) :
    (tail db name n).isSome
    ∧ (n < d.length → tail db name n = some (pyLastSlice d n))
    ∧ (d.length ≤ n → tail db name n = some d)
    ∧ (0 < n → n ≤ d.length →
        pyLastSlice d n = d.drop (d.length - n)
        ∧ (pyLastSlice d n).length = n) := by
  obtain ⟨qid, hq2⟩ := Option.isSome_iff_exists.mp hq
  have ht : tail db name n =
      some (if n < d.length then pyLastSlice d n else d) := by
    simp [tail, hq2, hl, hd]
  refine ⟨?_, ?_, ?_, ?_⟩
  · rw [ht]
    rfl
  · intro h
    rw [ht, if_pos h]
  · intro h
    rw [ht, if_neg (not_lt.mpr h)]
  · intro hn hnd
    have hn0 : ¬ n = 0 := by omega
    constructor
    · simp [pyLastSlice, hn0]
    · simp only [pyLastSlice, hn0, if_false, List.length_drop]
      omega

/-- Witness for C7 (spec scenario): tail with n = 10 on a five-row cached
result returns all five rows, not an error. -/
theorem tail_slice_witness :
    tail wDb "num transactions" 10 =
      some [[("i", Val.vint 0)], [("i", Val.vint 1)], [("i", Val.vint 2)],
        [("i", Val.vint 3)], [("i", Val.vint 4)]] :=
  (tail_slice_spec wDb "num transactions" 10 wEntryA
    [[("i", Val.vint 0)], [("i", Val.vint 1)], [("i", Val.vint 2)],
      [("i", Val.vint 3)], [("i", Val.vint 4)]]
    (by decide) (by decide) (by decide)).2.2.1 (by decide)

lemma exportLoop_spec (db : Database) (t : Nat) :
    ∀ (cat : List (String × Nat)),
      (exportLoop db t cat).1.queries_exported =
        cat.filterMap (fun nq => (exportKeep db nq).map
          (fun er => ⟨nq.1, nq.2, er.1.row_count, er.1.timestamp⟩))
      ∧ (exportLoop db t cat).1.total_rows =
        (((exportLoop db t cat).1.queries_exported).map
          (fun r => r.row_count)).sum
      ∧ (exportLoop db t cat).2 =
        (cat.filterMap (fun nq => (exportKeep db nq).map
          (fun er => er.2.map (enrichRow nq.1 nq.2 er.1.timestamp t)))).flatten := by
  intro cat
  induction cat with
  | nil => simp [exportLoop]
  | cons nq rest ih =>
    obtain ⟨nm, qid⟩ := nq
    obtain ⟨ih1, ih2, ih3⟩ := ih
    rcases hl : latestFor db nm with _ | e
    · have hk : exportKeep db (nm, qid) = none := by simp [exportKeep, hl]
      refine ⟨?_, ?_, ?_⟩ <;>
        simp only [exportLoop, hl, List.filterMap_cons, hk, Option.map_none] <;>
        simp [ih1, ih2, ih3]
    · rcases hp : e.data.parse with _ | rows
      · have hk : exportKeep db (nm, qid) = none := by simp [exportKeep, hl, hp]
        refine ⟨?_, ?_, ?_⟩ <;>
          simp only [exportLoop, hl, hp, List.filterMap_cons, hk,
            Option.map_none] <;>
          simp [ih1, ih2, ih3]
      · by_cases hrows : rows = []
        · subst hrows
          have hk : exportKeep db (nm, qid) = none := by
            simp [exportKeep, hl, hp]
          refine ⟨?_, ?_, ?_⟩ <;>
            simp only [exportLoop, hl, hp, List.filterMap_cons, hk,
              Option.map_none, if_pos] <;>
            simp [ih1, ih2, ih3]
        · have hk : exportKeep db (nm, qid) = some (e, rows) := by
            simp [exportKeep, hl, hp, hrows]
          refine ⟨?_, ?_, ?_⟩
          · simp only [exportLoop, hl, hp, if_neg hrows]
            simp [List.filterMap_cons, hk, ih1]
          · simp only [exportLoop, hl, hp, if_neg hrows]
            simp [ih2]
          · simp only [exportLoop, hl, hp, if_neg hrows]
            simp [List.filterMap_cons, hk, ih3]

/-- C4: export_for_artemis walks the catalog in its fixed order; an entry is
skipped exactly when its latest lookup finds nothing, its payload fails to
parse, or the parsed row list is empty; the per-query records, the aggregated
rows and total_rows are built from exactly the surviving entries, total_rows
being the sum of their stored row_count values. -/
theorem export_summary_spec (db : Database) (t : Nat) :
    (export_for_artemis db t).1.queries_exported =
      QUERY_IDS.filterMap (fun nq => (exportKeep db nq).map
        (fun er => ⟨nq.1, nq.2, er.1.row_count, er.1.timestamp⟩))
    ∧ (export_for_artemis db t).1.total_rows =
      (((export_for_artemis db t).1.queries_exported).map
        (fun r => r.row_count)).sum
    ∧ (export_for_artemis db t).2 =
      (QUERY_IDS.filterMap (fun nq => (exportKeep db nq).map
        (fun er => er.2.map (enrichRow nq.1 nq.2 er.1.timestamp t)))).flatten
    ∧ (∀ nq : String × Nat, exportKeep db nq = none ↔
        (latestFor db nq.1 = none
        ∨ (∃ e, latestFor db nq.1 = some e ∧ e.data.parse = none)
        ∨ (∃ e, latestFor db nq.1 = some e ∧ e.data.parse = some []))) := by
  obtain ⟨h1, h2, h3⟩ := exportLoop_spec db t QUERY_IDS
  refine ⟨h1, h2, h3, ?_⟩
  intro nq
  rcases hl : latestFor db nq.1 with _ | e
  · simp [exportKeep, hl]
  · rcases hp : e.data.parse with _ | rows
    · simp [exportKeep, hl, hp]
    · by_cases hrows : rows = []
      · subst hrows
        simp [exportKeep, hl, hp]
      · simp [exportKeep, hl, hp, hrows]

lemma mem_exportLoop_rows (db : Database) (t : Nat) :
    ∀ (cat : List (String × Nat)) (r : RowRec), r ∈ (exportLoop db t cat).2 →
      ∃ nq, nq ∈ cat ∧ ∃ e rows row, exportKeep db nq = some (e, rows)
        ∧ row ∈ rows ∧ r = enrichRow nq.1 nq.2 e.timestamp t row := by
  intro cat
  induction cat with
  | nil => simp [exportLoop]
  | cons nq rest ih =>
    obtain ⟨nm, qid⟩ := nq
    intro r hr
    rcases hl : latestFor db nm with _ | e
    · simp only [exportLoop, hl] at hr
      obtain ⟨nq2, hm, h⟩ := ih r hr
      exact ⟨nq2, List.mem_cons_of_mem _ hm, h⟩
    · rcases hp : e.data.parse with _ | rows
      · simp only [exportLoop, hl, hp] at hr
        obtain ⟨nq2, hm, h⟩ := ih r hr
        exact ⟨nq2, List.mem_cons_of_mem _ hm, h⟩
      · by_cases hrows : rows = []
        · simp only [exportLoop, hl, hp, if_pos hrows] at hr
          obtain ⟨nq2, hm, h⟩ := ih r hr
          exact ⟨nq2, List.mem_cons_of_mem _ hm, h⟩
        · simp only [exportLoop, hl, hp, if_neg hrows] at hr
          rcases List.mem_append.mp hr with hmem | hmem
          · obtain ⟨row, hrow, hre⟩ := List.mem_map.mp hmem
            refine ⟨(nm, qid), List.mem_cons_self _ _,
              e, rows, row, ?_, hrow, hre.symm⟩
            simp [exportKeep, hl, hp, hrows]
          · obtain ⟨nq2, hm, h⟩ := ih r hmem
            exact ⟨nq2, List.mem_cons_of_mem _ hm, h⟩

lemma dictGet_dictSet_self : ∀ (r : RowRec) (k : String) (v : Val),
    dictGet (dictSet r k v) k = some v := by
  intro r k v
  induction r with
  | nil => simp [dictSet, dictGet]
  | cons p r ih =>
    obtain ⟨pk, pv⟩ := p
    by_cases h : pk = k
    · subst h
      simp [dictSet, dictGet]
    · simp [dictSet, dictGet, h, ih]

lemma dictGet_dictSet_ne (k key : String) (v : Val) (hne : key ≠ k) :
    ∀ (r : RowRec), dictGet (dictSet r k v) key = dictGet r key := by
  intro r
  induction r with
  | nil => simp [dictSet, dictGet, Ne.symm hne]
  | cons p r ih =>
    obtain ⟨pk, pv⟩ := p
    by_cases h1 : pk = k
    · subst h1
      simp [dictSet, dictGet, Ne.symm hne]
    · by_cases h2 : pk = key <;> simp [dictSet, dictGet, h1, h2, ih, hne]

/-- C8: every aggregated export row is a source row of a surviving catalog
entry merged with the four reserved metadata fields, where the reserved fields
always win: after enrichment, _query_name holds the catalog's logical name
(also when the source row already had a _query_name field), _query_id,
_fetched_at and _exported_at hold the metadata values, and every non-reserved
source field is unchanged. -/
theorem export_enrichment_spec :
    (∀ (name : String) (qid : Nat) (ft et : Nat) (row : RowRec),
      dictGet (enrichRow name qid ft et row) "_query_name" =
          some (.vstr name)
        ∧ dictGet (enrichRow name qid ft et row) "_query_id" =
          some (.vint (Int.ofNat qid))
        ∧ dictGet (enrichRow name qid ft et row) "_fetched_at" =
          some (.vtime ft)
        ∧ dictGet (enrichRow name qid ft et row) "_exported_at" =
          some (.vtime et)
        ∧ ∀ k, ¬ k ∈ ["_query_name", "_query_id", "_fetched_at",
            "_exported_at"] →
          dictGet (enrichRow name qid ft et row) k = dictGet row k)
    ∧ (∀ (db : Database) (t : Nat) (r : RowRec),
        r ∈ (export_for_artemis db t).2 →
        ∃ nq, nq ∈ QUERY_IDS ∧ ∃ e rows row,
          exportKeep db nq = some (e, rows) ∧ row ∈ rows
          ∧ r = enrichRow nq.1 nq.2 e.timestamp t row) := by
  constructor
  · intro name qid ft et row
    refine ⟨?_, ?_, ?_, ?_, ?_⟩
    · rw [enrichRow, dictGet_dictSet_ne _ _ _ (by decide),
        dictGet_dictSet_ne _ _ _ (by decide),
        dictGet_dictSet_ne _ _ _ (by decide), dictGet_dictSet_self]
    · rw [enrichRow, dictGet_dictSet_ne _ _ _ (by decide),
        dictGet_dictSet_ne _ _ _ (by decide), dictGet_dictSet_self]
    · rw [enrichRow, dictGet_dictSet_ne _ _ _ (by decide),
        dictGet_dictSet_self]
    · rw [enrichRow, dictGet_dictSet_self]
    · intro k hk
      simp only [List.mem_cons, List.not_mem_nil, or_false, not_or] at hk
      obtain ⟨hk1, hk2, hk3, hk4⟩ := hk
      rw [enrichRow, dictGet_dictSet_ne _ _ _ hk4, dictGet_dictSet_ne _ _ _ hk3,
        dictGet_dictSet_ne _ _ _ hk2, dictGet_dictSet_ne _ _ _ hk1]
  · intro db t r hr
    exact mem_exportLoop_rows db t QUERY_IDS r hr

/-- Witness for C8 (spec scenario): enriching a row that already carries a
_query_name field yields the catalog name, and the non-reserved field x is
preserved. -/
theorem export_enrichment_witness :
    dictGet (enrichRow "num transactions" 1 2 3
        [("x", .vint 1), ("_query_name", .vstr "collision")]) "_query_name" =
      some (.vstr "num transactions")
    ∧ dictGet (enrichRow "num transactions" 1 2 3
        [("x", .vint 1), ("_query_name", .vstr "collision")]) "x" =
      some (.vint 1) := by
  have h := export_enrichment_spec.1 "num transactions" 1 2 3
    [("x", .vint 1), ("_query_name", .vstr "collision")]
  refine ⟨h.1, ?_⟩
  have h5 := h.2.2.2.2 "x" (by decide)
  rw [h5]
  rfl

/-- C9: whenever a polling iteration of the daemon loop triggers a run at
time t, the new next_update is t plus the configured interval when the run
succeeds and exactly t plus one hour when it fails, the failure reschedule
being independent of the configured interval. -/
theorem scheduler_reschedule_spec (interval_hours : Nat)
    (runOutcome : Nat → Bool) (t nu : Nat) (hdue : nu ≤ t) :
    (runOutcome t = true →
      schedulerStep interval_hours runOutcome t nu =
        (true, t + interval_hours * 3600))
    ∧ (runOutcome t = false →
      schedulerStep interval_hours runOutcome t nu = (true, t + 3600)
      ∧ ∀ ih2 : Nat, schedulerStep ih2 runOutcome t nu =
          schedulerStep interval_hours runOutcome t nu) := by
  constructor
  · intro h
    simp [schedulerStep, hdue, h]
  · intro h
    refine ⟨?_, ?_⟩
    · simp [schedulerStep, hdue, h]
    · intro ih2
      simp [schedulerStep, hdue, h]

/-- Witness for C9 (spec scenario): a failed run at time 100 with a 24-hour
configured interval reschedules to 100 + 3600, one hour later. -/
theorem scheduler_reschedule_witness :
    schedulerStep 24 (fun _ => false) 100 0 = (true, 100 + 3600) :=
  ((scheduler_reschedule_spec 24 (fun _ => false) 100 0 (by omega)).2 rfl).1

end X402
